import Mathlib

/-!
Verification of the hours/cost computation and reporting-aggregation logic of
the rygrove-site time-tracking application.

Embedding conventions:
* JavaScript numbers are modelled as exact rationals (`ℚ`); the arithmetic the
  code performs on durations and currency amounts stays within quantities that
  the intended decimal semantics represents exactly.
* A time of day is its minute count since midnight (`ℕ`); a calendar date is a
  day index (`ℤ`).
* `null` fields are `Option`; a JavaScript truthiness test on `lunch_break`
  (`null` or a non-empty string such as "00:30") is `Option.isSome`.
* `Number(x.toFixed(2))` and the 2-digit currency display of
  `Intl.NumberFormat` are both `round2`: round the value to two decimal digits
  (ties away from the midpoint cannot arise for the minute-based inputs, and
  the display formatter picks the larger candidate on a tie, matching `round`).
-/

/-- Rounds a rational to 2 decimal places, ties upward - the model of
JavaScript's `Number(x.toFixed(2))` and of 2-digit currency display. -/
def round2 (q : ℚ) : ℚ := (round (q * 100) : ℤ) / 100

/-- An expense row as selected by the reporting and invoice views
(`expenses (amount, description, receipt_url)`). -/
structure Expense where
  amount : ℚ
  description : String
  receipt_url : Option String
  retailer_name : Option String
deriving Repr, DecidableEq

/-- A time entry as the components share it: the `time_entries` row together
with its denormalized `full_name` and nested expenses.  `lunch_break` is the
stored duration in minutes (`some 30` for "00:30", `none` for SQL null); the
entry form additionally keeps the client-only `has_lunch_break` checkbox,
which the other views never read. -/
structure TimeEntry where
  date : ℤ
  is_full_day : Bool
  start_time : ℕ
  end_time : ℕ
  location : String
  has_lunch_break : Bool
  lunch_break : Option ℕ
  user_id : String
  full_name : String
  expenses : List Expense
deriving Repr, DecidableEq

/-- Minutes of the recorded lunch break, 0 when none is recorded. -/
def lunchMinutes (e : TimeEntry) : ℕ := e.lunch_break.getD 0

/-- From `TimeEntriesPage.tsx` (`calculateEntryHours`): the entry form's
duration.  Full day: 7.5 h when `has_lunch_break && lunch_break` is truthy,
else 8 h.  Otherwise minutes from start to end, minus the lunch break under
the same condition, divided by 60 and rounded via `toFixed(2)`. -/
def calculateEntryHours (e : TimeEntry) : ℚ :=
  if e.is_full_day then
    if e.has_lunch_break ∧ e.lunch_break.isSome then 7.5 else 8
  else
    let minutes : ℤ :=
      if e.has_lunch_break ∧ e.lunch_break.isSome then
        (e.end_time : ℤ) - (e.start_time : ℤ) - (lunchMinutes e : ℤ)
      else
        (e.end_time : ℤ) - (e.start_time : ℤ)
    round2 ((minutes : ℚ) / 60)

/-- From the admin page (`calculateTotalHours`): the admin table's duration.
Full day: 7.5 h when `lunch_break` is truthy, else 8 h.  Otherwise minutes
from start to end minus any stored lunch break, divided by 60 and rounded
via `toFixed(2)`.  (The admin view reads the stored row, which has no
`has_lunch_break` column.) -/
def calculateTotalHours (e : TimeEntry) : ℚ :=
  if e.is_full_day then
    if e.lunch_break.isSome then 7.5 else 8
  else
    let minutes : ℤ :=
      if e.lunch_break.isSome then
        (e.end_time : ℤ) - (e.start_time : ℤ) - (lunchMinutes e : ℤ)
      else
        (e.end_time : ℤ) - (e.start_time : ℤ)
    round2 ((minutes : ℚ) / 60)

/-- From `ViewActivityPage` (`calculateDuration`): duration from a start and
end time of day and an optional lunch break - no `is_full_day` handling and
no rounding. -/
def calculateDuration (s t : ℕ) (lb : Option ℕ) : ℚ :=
  let minutes : ℤ :=
    if lb.isSome then (t : ℤ) - (s : ℤ) - (lb.getD 0 : ℤ)
    else (t : ℤ) - (s : ℤ)
  (minutes : ℚ) / 60

/-- Hours the activity dashboard attributes to an entry: `calculateDuration`
applied to the entry's STORED `start_time`/`end_time` (the dashboard's chart,
summary tiles and grouped table never consult `is_full_day`). -/
def dashboardHours (e : TimeEntry) : ℚ :=
  calculateDuration e.start_time e.end_time e.lunch_break

/-- From `CreateInvoicePage.tsx` (`locationSummary`): hours of one entry as
the invoice view computes them - full-day entries use the 09:00/17:00
sentinels in place of the stored times, then any stored lunch break is
subtracted; no rounding. -/
def invoiceEntryHours (e : TimeEntry) : ℚ :=
  let s : ℕ := if e.is_full_day then 9 * 60 else e.start_time
  let t : ℕ := if e.is_full_day then 17 * 60 else e.end_time
  let minutes : ℤ :=
    if e.lunch_break.isSome then (t : ℤ) - (s : ℤ) - (lunchMinutes e : ℤ)
    else (t : ℤ) - (s : ℤ)
  (minutes : ℚ) / 60

example : calculateEntryHours
    { date := 0, is_full_day := false, start_time := 9 * 60,
      end_time := 17 * 60 + 30, location := "", has_lunch_break := true,
      lunch_break := some 30, user_id := "", full_name := "",
      expenses := [] } = 8 := by
  norm_num [calculateEntryHours, lunchMinutes, round2, round_eq]

example : calculateDuration (8 * 60) (16 * 60 + 30) none = 17 / 2 := by
  norm_num [calculateDuration]

example : invoiceEntryHours
    { date := 0, is_full_day := true, start_time := 8 * 60,
      end_time := 16 * 60 + 30, location := "", has_lunch_break := true,
      lunch_break := some 45, user_id := "", full_name := "",
      expenses := [] } = 29 / 4 := by
  norm_num [invoiceEntryHours, lunchMinutes]

/-! ### Shared sample entries and rounding lemmas -/

/-- The partial-day duration formula of the specification (§4.1/§8):
`round2((endMinutes − startMinutes − lunchMinutes)/60)`.  Written from the
spec's words for comparison against the source calculators. -/
def specPartialDuration (e : TimeEntry) : ℚ :=
  round2 ((((e.end_time : ℤ) - (e.start_time : ℤ) - (lunchMinutes e : ℤ) : ℤ) : ℚ) / 60)

/-- The fixed full-day rule of the specification: 7.5 hours when a lunch
break is recorded on the stored row, 8.0 otherwise.  Written from the spec's
words for comparison against the source calculators. -/
def specFullDayRule (e : TimeEntry) : ℚ :=
  if e.lunch_break.isSome then 7.5 else 8

/-- Negative minute counts stay negative after `toFixed(2)` rounding. -/
lemma round2_div60_neg (m : ℤ) (hm : m ≤ -1) : round2 ((m : ℚ) / 60) < 0 := by
  unfold round2
  have hm' : (m : ℚ) ≤ -1 := by exact_mod_cast hm
  have h1 : ((m : ℚ) / 60) * 100 ≤ -5 / 3 := by linarith
  have h2 : round (((m : ℚ) / 60) * 100) ≤ round ((-5 : ℚ) / 3) := by
    rw [round_eq, round_eq]
    exact Int.floor_le_floor (by linarith)
  have h3 : round ((-5 : ℚ) / 3) = -2 := by
    rw [round_eq, Int.floor_eq_iff]
    norm_num
  have h4 : ((round (((m : ℚ) / 60) * 100) : ℤ) : ℚ) ≤ -2 := by
    exact_mod_cast h2.trans_eq h3
  linarith

/-- Negative minute counts divided by 60 are negative. -/
lemma div60_neg (m : ℤ) (hm : m ≤ -1) : (m : ℚ) / 60 < 0 := by
  have hm' : (m : ℚ) ≤ -1 := by exact_mod_cast hm
  linarith

/-! ### C2: partial-day duration formula -/

/-- C2: for a partial-day entry whose checkbox agrees with the stored lunch
break (the invariant the entry form maintains), both the entry-form
calculator and the admin calculator return
`round2((endMinutes − startMinutes − lunchMinutes)/60)`. -/
theorem partial_day_duration_formula (e : TimeEntry)
    (hfd : e.is_full_day = false)
    (hinv : e.has_lunch_break = e.lunch_break.isSome) :
    calculateEntryHours e = specPartialDuration e ∧
    calculateTotalHours e = specPartialDuration e := by
  unfold calculateEntryHours calculateTotalHours specPartialDuration
  rw [hfd]
  cases hlb : e.lunch_break with
  | none =>
    rw [hinv, hlb]
    simp [lunchMinutes, hlb]
  | some lb =>
    rw [hinv, hlb]
    simp [lunchMinutes, hlb]

/-- Sample entry for C2: partial day 09:00-17:30 with a 30-minute lunch. -/
def c2SampleEntry : TimeEntry :=
  { date := 0, is_full_day := false, start_time := 9 * 60,
    end_time := 17 * 60 + 30, location := "Site A", has_lunch_break := true,
    lunch_break := some 30, user_id := "u1", full_name := "Alice",
    expenses := [] }

/-- Witness for C2 at start 09:00, end 17:30, lunch 00:30 - and the value
there is exactly 8.0. -/
theorem partial_day_duration_formula_witness :
    c2SampleEntry.is_full_day = false ∧
    c2SampleEntry.has_lunch_break = c2SampleEntry.lunch_break.isSome ∧
    (calculateEntryHours c2SampleEntry = specPartialDuration c2SampleEntry ∧
     calculateTotalHours c2SampleEntry = specPartialDuration c2SampleEntry) ∧
    calculateEntryHours c2SampleEntry = 8 :=
  ⟨rfl, rfl, partial_day_duration_formula c2SampleEntry rfl rfl, by
    norm_num [calculateEntryHours, c2SampleEntry, lunchMinutes, round2, round_eq]⟩

/-! ### C8: end before start yields a negative duration, no error -/

/-- C8: for a partial-day entry with `endTime < startTime` every calculator
is still defined (the embedding's functions are total) and returns a negative
value; the dashboard calculator returns exactly the signed minute difference
minus the lunch break, divided by 60. -/
theorem negative_duration_no_error (e : TimeEntry)
    (hfd : e.is_full_day = false)
    (hlt : e.end_time < e.start_time) :
    calculateEntryHours e < 0 ∧
    calculateTotalHours e < 0 ∧
    calculateDuration e.start_time e.end_time e.lunch_break =
      (((e.end_time : ℤ) - (e.start_time : ℤ) - (lunchMinutes e : ℤ) : ℤ) : ℚ) / 60 ∧
    calculateDuration e.start_time e.end_time e.lunch_break < 0 := by
  have hneg : (e.end_time : ℤ) - (e.start_time : ℤ) ≤ -1 := by omega
  have hneg2 : ∀ lb : ℤ, 0 ≤ lb → (e.end_time : ℤ) - (e.start_time : ℤ) - lb ≤ -1 := by
    intro lb hlb; omega
  refine ⟨?_, ?_, ?_, ?_⟩
  · unfold calculateEntryHours
    rw [hfd]
    by_cases h : e.has_lunch_break = true ∧ e.lunch_break.isSome = true
    · simp only [h, if_pos, and_self, if_true]
      exact round2_div60_neg _ (hneg2 _ (by positivity))
    · simp only [if_neg h]
      exact round2_div60_neg _ hneg
  · unfold calculateTotalHours
    rw [hfd]
    by_cases h : e.lunch_break.isSome = true
    · simp only [h, if_true]
      exact round2_div60_neg _ (hneg2 _ (by positivity))
    · simp only [h, Bool.false_eq_true, if_false]
      exact round2_div60_neg _ hneg
  · unfold calculateDuration
    cases hlb : e.lunch_break with
    | none => simp [lunchMinutes, hlb]
    | some lb => simp [lunchMinutes, hlb]
  · unfold calculateDuration
    by_cases h : e.lunch_break.isSome = true
    · simp only [h, if_true]
      exact div60_neg _ (hneg2 _ (by positivity))
    · simp only [h, Bool.false_eq_true, if_false]
      exact div60_neg _ hneg

/-- Sample entry for C8: partial day recorded 17:00 to 09:00 (end before
start) with a 30-minute lunch. -/
def c8SampleEntry : TimeEntry :=
  { date := 0, is_full_day := false, start_time := 17 * 60,
    end_time := 9 * 60, location := "Site A", has_lunch_break := true,
    lunch_break := some 30, user_id := "u1", full_name := "Alice",
    expenses := [] }

/-- Witness for C8 at the 17:00 to 09:00 sample entry. -/
theorem negative_duration_no_error_witness :
    c8SampleEntry.is_full_day = false ∧
    c8SampleEntry.end_time < c8SampleEntry.start_time ∧
    (calculateEntryHours c8SampleEntry < 0 ∧
     calculateTotalHours c8SampleEntry < 0 ∧
     calculateDuration c8SampleEntry.start_time c8SampleEntry.end_time
        c8SampleEntry.lunch_break =
       (((c8SampleEntry.end_time : ℤ) - (c8SampleEntry.start_time : ℤ) -
          (lunchMinutes c8SampleEntry : ℤ) : ℤ) : ℚ) / 60 ∧
     calculateDuration c8SampleEntry.start_time c8SampleEntry.end_time
        c8SampleEntry.lunch_break < 0) :=
  ⟨rfl, by decide, negative_duration_no_error c8SampleEntry rfl (by decide)⟩

/-! ### C1: the fixed 7.5/8.0 full-day rule across the four views -/

/-- Full-day entry as the form stores it (08:00-16:30 sentinels), with no
lunch break. -/
def fullDayNoLunchEntry : TimeEntry :=
  { date := 0, is_full_day := true, start_time := 8 * 60,
    end_time := 16 * 60 + 30, location := "Site A", has_lunch_break := false,
    lunch_break := none, user_id := "u1", full_name := "Alice",
    expenses := [] }

/-- Full-day entry as the form stores it, with a 45-minute lunch break. -/
def fullDayLunch45Entry : TimeEntry :=
  { date := 0, is_full_day := true, start_time := 8 * 60,
    end_time := 16 * 60 + 30, location := "Site A", has_lunch_break := true,
    lunch_break := some 45, user_id := "u1", full_name := "Alice",
    expenses := [] }

/-- C1 counterexample: the claim that every view returns the fixed 7.5/8.0
value for a full-day entry fails in the code.  The activity dashboard
computes 8.5 h (not 8.0) for a stored full-day 08:00-16:30 entry without a
lunch break, and the invoice summary computes 7.25 h (not 7.5) for a
full-day entry with a 45-minute lunch break. -/
theorem full_day_fixed_rule_counterexample :
    (dashboardHours fullDayNoLunchEntry = 17 / 2 ∧
     specFullDayRule fullDayNoLunchEntry = 8 ∧
     dashboardHours fullDayNoLunchEntry ≠ specFullDayRule fullDayNoLunchEntry) ∧
    (invoiceEntryHours fullDayLunch45Entry = 29 / 4 ∧
     specFullDayRule fullDayLunch45Entry = 15 / 2 ∧
     invoiceEntryHours fullDayLunch45Entry ≠ specFullDayRule fullDayLunch45Entry) := by
  refine ⟨⟨?_, ?_, ?_⟩, ⟨?_, ?_, ?_⟩⟩ <;>
    norm_num [dashboardHours, calculateDuration, invoiceEntryHours,
      specFullDayRule, lunchMinutes, fullDayNoLunchEntry, fullDayLunch45Entry]

/-- C1 amended: for a full-day entry (with the checkbox/field invariant),
the entry form and the admin table return the fixed 7.5/8.0 value; the
invoice summary instead returns `8 − lunchMinutes/60` (computed from its
09:00-17:00 sentinels), agreeing with the fixed rule exactly when the lunch
break is absent or 30 minutes; and the activity dashboard returns the
duration of the STORED start/end times, not a fixed value. -/
theorem full_day_durations_amended (e : TimeEntry)
    (hfd : e.is_full_day = true)
    (hinv : e.has_lunch_break = e.lunch_break.isSome) :
    calculateEntryHours e = specFullDayRule e ∧
    calculateTotalHours e = specFullDayRule e ∧
    invoiceEntryHours e = 8 - (lunchMinutes e : ℚ) / 60 ∧
    (invoiceEntryHours e = specFullDayRule e ↔
      e.lunch_break = none ∨ e.lunch_break = some 30) ∧
    dashboardHours e =
      (((e.end_time : ℤ) - (e.start_time : ℤ) - (lunchMinutes e : ℤ) : ℤ) : ℚ) / 60 := by
  refine ⟨?_, ?_, ?_, ?_, ?_⟩
  · unfold calculateEntryHours specFullDayRule
    rw [hfd, hinv]
    cases e.lunch_break <;> simp
  · unfold calculateTotalHours specFullDayRule
    rw [hfd]
    simp
  · unfold invoiceEntryHours
    rw [hfd]
    cases hlb : e.lunch_break with
    | none => norm_num [lunchMinutes, hlb]
    | some lb =>
      simp only [lunchMinutes, hlb, Option.isSome_some, if_true, if_pos,
        Option.getD_some]
      push_cast
      ring
  · unfold invoiceEntryHours specFullDayRule
    rw [hfd]
    cases hlb : e.lunch_break with
    | none => norm_num [lunchMinutes, hlb]
    | some lb =>
      simp only [lunchMinutes, hlb, Option.isSome_some, if_true,
        Option.getD_some, Option.some.injEq, reduceCtorEq, false_or]
      constructor
      · intro h
        have hq : (lb : ℚ) = 30 := by
          push_cast at h ⊢
          linarith
        exact_mod_cast hq
      · intro h
        subst h
        push_cast
        norm_num
  · unfold dashboardHours calculateDuration
    cases hlb : e.lunch_break with
    | none => simp [lunchMinutes, hlb]
    | some lb => simp [lunchMinutes, hlb]

/-- Witness for the amended C1 at the full-day 45-minute-lunch entry. -/
theorem full_day_durations_amended_witness :
    fullDayLunch45Entry.is_full_day = true ∧
    fullDayLunch45Entry.has_lunch_break = fullDayLunch45Entry.lunch_break.isSome ∧
    (calculateEntryHours fullDayLunch45Entry = specFullDayRule fullDayLunch45Entry ∧
     calculateTotalHours fullDayLunch45Entry = specFullDayRule fullDayLunch45Entry ∧
     invoiceEntryHours fullDayLunch45Entry =
       8 - (lunchMinutes fullDayLunch45Entry : ℚ) / 60 ∧
     (invoiceEntryHours fullDayLunch45Entry = specFullDayRule fullDayLunch45Entry ↔
       fullDayLunch45Entry.lunch_break = none ∨
       fullDayLunch45Entry.lunch_break = some 30) ∧
     dashboardHours fullDayLunch45Entry =
       (((fullDayLunch45Entry.end_time : ℤ) - (fullDayLunch45Entry.start_time : ℤ) -
          (lunchMinutes fullDayLunch45Entry : ℤ) : ℤ) : ℚ) / 60) :=
  ⟨rfl, rfl, full_day_durations_amended fullDayLunch45Entry rfl rfl⟩

/-! ### Submission model (TimeEntriesPage.tsx `handleSubmit`) for C3 and C9

The submit handler first gates on the over-8-hours confirmation, then walks
the batch sequentially: one insert call for the time-entry row, then one
insert call per expense row (receipt-upload failures are caught and skipped
in the source and do not write rows; the retailer get-or-create write is
folded into its expense's call here, since a thrown error on either aborts
the batch identically).  Any failed call throws, is caught once, and shows
the single generic failure message; nothing written before it is deleted. -/

/-- One persistence call of the submission loop. -/
inductive SubCall where
  | entryIns : TimeEntry → SubCall
  | expenseIns : TimeEntry → Expense → SubCall
deriving Repr, DecidableEq

/-- The ordered persistence calls a batch performs: for each entry, its row
insert followed by one insert per expense. -/
def submitCalls : List TimeEntry → List SubCall
  | [] => []
  | e :: es => (SubCall.entryIns e :: e.expenses.map (SubCall.expenseIns e)) ++ submitCalls es

/-- Runs calls in order with counter `k`; `fails` says which call indices the
persistence layer rejects.  Returns the calls that actually wrote a row and
whether every call succeeded; the first failure stops the loop. -/
def runCalls (fails : ℕ → Bool) : List SubCall → ℕ → List SubCall × Bool
  | [], _ => ([], true)
  | c :: cs, k =>
    if fails k then ([], false)
    else
      let r := runCalls fails cs (k + 1)
      (c :: r.1, r.2)

/-- Outcome the user sees. -/
inductive SubmitOutcome where
  | cancelled
  | success
  | genericFailure
deriving Repr, DecidableEq

/-- From `handleSubmit`: `entries.filter(entry => calculateEntryHours(entry) > 8)`. -/
def overEntries (entries : List TimeEntry) : List TimeEntry :=
  entries.filter fun e => decide ((8 : ℚ) < calculateEntryHours e)

/-- The submit handler: when some entry exceeds 8 hours and the user
declines the confirmation, it returns before any write; otherwise it runs
the write sequence, reporting the generic failure message if any call
failed. -/
def handleSubmit (entries : List TimeEntry) (confirmed : Bool) (fails : ℕ → Bool) :
    List SubCall × SubmitOutcome :=
  if overEntries entries ≠ [] ∧ confirmed = false then
    ([], SubmitOutcome.cancelled)
  else
    let r := runCalls fails (submitCalls entries) 0
    (r.1, if r.2 then SubmitOutcome.success else SubmitOutcome.genericFailure)

/-! ### C3: the overage confirmation gate -/

/-- C3: the confirmation prompt fires exactly when some entry's computed
duration strictly exceeds 8.0 hours; a batch with all durations at most 8.0
is submitted identically with or without user confirmation and is never
cancelled; and declining the prompt returns before any row is written. -/
theorem overage_confirmation_gate (entries : List TimeEntry) (fails : ℕ → Bool) :
    (overEntries entries ≠ [] ↔ ∃ e ∈ entries, 8 < calculateEntryHours e) ∧
    ((∀ e ∈ entries, calculateEntryHours e ≤ 8) →
      ∀ confirmed, handleSubmit entries confirmed fails =
          handleSubmit entries true fails ∧
        (handleSubmit entries confirmed fails).2 ≠ SubmitOutcome.cancelled) ∧
    ((∃ e ∈ entries, 8 < calculateEntryHours e) →
      handleSubmit entries false fails = ([], SubmitOutcome.cancelled)) := by
  have hiff : overEntries entries ≠ [] ↔ ∃ e ∈ entries, 8 < calculateEntryHours e := by
    constructor
    · intro h
      obtain ⟨x, hx⟩ := List.exists_mem_of_ne_nil _ h
      obtain ⟨hmem, hdec⟩ := List.mem_filter.1 hx
      exact ⟨x, hmem, of_decide_eq_true hdec⟩
    · rintro ⟨e, he, hgt⟩ hcon
      have : e ∈ overEntries entries :=
        List.mem_filter.2 ⟨he, decide_eq_true hgt⟩
      rw [hcon] at this
      exact absurd this (List.not_mem_nil e)
  refine ⟨hiff, ?_, ?_⟩
  · intro hle confirmed
    have hno : overEntries entries = [] := by
      by_contra h
      obtain ⟨e, he, hgt⟩ := hiff.1 h
      exact absurd (hle e he) (not_le.2 hgt)
    constructor
    · simp [handleSubmit, hno]
    · simp only [handleSubmit, hno, ne_eq, not_true_eq_false, false_and, if_false]
      split <;> simp
  · intro hex
    have hne : overEntries entries ≠ [] := hiff.2 hex
    simp [handleSubmit, hne]

/-- Partial-day entry 08:00-16:00 without lunch: exactly 8.0 hours. -/
def eightHourEntry : TimeEntry :=
  { date := 0, is_full_day := false, start_time := 8 * 60,
    end_time := 16 * 60, location := "Site A", has_lunch_break := false,
    lunch_break := none, user_id := "u1", full_name := "Alice",
    expenses := [] }

/-- Partial-day entry 08:00-17:00 without lunch: 9.0 hours. -/
def nineHourEntry : TimeEntry :=
  { date := 0, is_full_day := false, start_time := 8 * 60,
    end_time := 17 * 60, location := "Site A", has_lunch_break := false,
    lunch_break := none, user_id := "u1", full_name := "Alice",
    expenses := [] }

/-- Witness for C3: the boundary batch (exactly 8.0 hours) proceeds without
confirmation, and declining the prompt on a 9-hour batch writes nothing. -/
theorem overage_confirmation_gate_witness :
    ((∀ e ∈ [eightHourEntry], calculateEntryHours e ≤ 8) ∧
      (handleSubmit [eightHourEntry] false (fun _ => false)).2 ≠
        SubmitOutcome.cancelled) ∧
    ((∃ e ∈ [nineHourEntry], 8 < calculateEntryHours e) ∧
      handleSubmit [nineHourEntry] false (fun _ => false) =
        ([], SubmitOutcome.cancelled)) := by
  have hle : ∀ e ∈ [eightHourEntry], calculateEntryHours e ≤ 8 := by
    intro e he
    simp only [List.mem_singleton] at he
    subst he
    norm_num [calculateEntryHours, eightHourEntry, round2, round_eq]
  have hex : ∃ e ∈ [nineHourEntry], 8 < calculateEntryHours e := by
    refine ⟨nineHourEntry, by simp, ?_⟩
    norm_num [calculateEntryHours, nineHourEntry, round2, round_eq]
  exact ⟨⟨hle, ((overage_confirmation_gate [eightHourEntry] (fun _ => false)).2.1
      hle false).2⟩,
    ⟨hex, (overage_confirmation_gate [nineHourEntry] (fun _ => false)).2.2 hex⟩⟩

/-! ### C9: a mid-batch persistence failure keeps earlier writes -/

/-- Number of calls that succeed before the first failure, counting from
call index `k`. -/
def succCount (fails : ℕ → Bool) : List SubCall → ℕ → ℕ
  | [], _ => 0
  | _ :: cs, k => if fails k then 0 else succCount fails cs (k + 1) + 1

/-- The write loop keeps exactly the calls before the first failure and
succeeds exactly when every call succeeded. -/
lemma runCalls_eq (fails : ℕ → Bool) (cs : List SubCall) (k : ℕ) :
    runCalls fails cs k =
      (cs.take (succCount fails cs k),
       decide (succCount fails cs k = cs.length)) := by
  induction cs generalizing k with
  | nil => simp [runCalls, succCount]
  | cons c cs ih =>
    by_cases h : fails k
    · simp [runCalls, succCount, h]
    · have hd : decide (succCount fails cs (k + 1) + 1 = cs.length + 1) =
          decide (succCount fails cs (k + 1) = cs.length) := by
        rcases Decidable.em (succCount fails cs (k + 1) = cs.length) with he | he
        · simp [he]
        · simp [he, fun hc => he (Nat.succ_injective hc)]
      simp [runCalls, succCount, h, ih (k + 1), hd]

/-- When `i0` is the first failing call index, the loop starting at `k ≤ i0`
performs exactly `i0 − k` successful calls. -/
lemma succCount_first_fail (fails : ℕ → Bool) (cs : List SubCall) (k i0 : ℕ)
    (hi : fails i0 = true) (hfirst : ∀ j, k ≤ j → j < i0 → fails j = false)
    (hk : k ≤ i0) (hlen : i0 < k + cs.length) :
    succCount fails cs k = i0 - k := by
  induction cs generalizing k with
  | nil => simp at hlen; omega
  | cons c cs ih =>
    by_cases h : fails k
    · have hkeq : k = i0 := by
        by_contra hne
        have hklt : k < i0 := lt_of_le_of_ne hk hne
        rw [hfirst k le_rfl hklt] at h
        simp at h
      subst hkeq
      simp [succCount, h]
    · have hklt : k < i0 := by
        rcases lt_or_eq_of_le hk with hlt | hEq
        · exact hlt
        · subst hEq; rw [hi] at h; exact absurd rfl h
      have hrec := ih (k + 1) (fun j hj hjlt => hfirst j (by omega) hjlt)
        (by omega) (by simp at hlen ⊢; omega)
      simp [succCount, h, hrec]
      omega

/-- C9: if the persistence layer rejects call `i0` (the first failure) while
earlier calls succeed, the whole submission stops there: the rows written
are exactly those of the calls before `i0` - none is rolled back, none after
`i0` is attempted - and the outcome is the single generic failure message. -/
theorem partial_failure_keeps_prior_writes (entries : List TimeEntry)
    (fails : ℕ → Bool) (i0 : ℕ)
    (hi : fails i0 = true)
    (hfirst : ∀ j < i0, fails j = false)
    (hlen : i0 < (submitCalls entries).length) :
    handleSubmit entries true fails =
      ((submitCalls entries).take i0, SubmitOutcome.genericFailure) := by
  have hsc : succCount fails (submitCalls entries) 0 = i0 := by
    have h := succCount_first_fail fails (submitCalls entries) 0 i0 hi
      (fun j _ hj => hfirst j hj) (Nat.zero_le _) (by omega)
    simpa using h
  have hne : i0 ≠ (submitCalls entries).length := Nat.ne_of_lt hlen
  unfold handleSubmit
  rw [if_neg (by simp)]
  rw [runCalls_eq]
  simp [hsc, hne]

/-- Sample batch for C9: two entries, the first with one expense. -/
def c9Expense : Expense :=
  { amount := 25, description := "Paint", receipt_url := none,
    retailer_name := some "Depot" }

/-- First entry of the C9 sample batch. -/
def c9Entry1 : TimeEntry :=
  { date := 0, is_full_day := true, start_time := 8 * 60,
    end_time := 16 * 60 + 30, location := "Site A", has_lunch_break := true,
    lunch_break := some 30, user_id := "u1", full_name := "Alice",
    expenses := [c9Expense] }

/-- Second entry of the C9 sample batch. -/
def c9Entry2 : TimeEntry :=
  { date := 1, is_full_day := true, start_time := 8 * 60,
    end_time := 16 * 60 + 30, location := "Site B", has_lunch_break := false,
    lunch_break := none, user_id := "u2", full_name := "Bob",
    expenses := [] }

/-- Witness for C9: with calls (entry1, expense, entry2) and the persistence
layer rejecting call 1 (the expense), the submission keeps the already
written entry row and reports the generic failure. -/
theorem partial_failure_keeps_prior_writes_witness :
    (fun k => decide (k = 1)) 1 = true ∧
    (∀ j < 1, (fun k => decide (k = 1)) j = false) ∧
    1 < (submitCalls [c9Entry1, c9Entry2]).length ∧
    handleSubmit [c9Entry1, c9Entry2] true (fun k => decide (k = 1)) =
      ((submitCalls [c9Entry1, c9Entry2]).take 1, SubmitOutcome.genericFailure) := by
  have h1 : (fun k => decide (k = 1)) 1 = true := by decide
  have h2 : ∀ j < 1, (fun k => decide (k = 1)) j = false := by decide
  have h3 : 1 < (submitCalls [c9Entry1, c9Entry2]).length := by
    simp [submitCalls, c9Entry1, c9Entry2]
  exact ⟨h1, h2, h3,
    partial_failure_keeps_prior_writes [c9Entry1, c9Entry2] (fun k => decide (k = 1))
      1 h1 h2 h3⟩

/-! ### C4: estimate worksheet subtotal / overhead / total -/

/-- A worksheet row of `EstimateWorksheetPage` (`{ id, item, cost }`). -/
structure WorksheetRow where
  id : String
  item : String
  cost : ℚ
deriving Repr, DecidableEq

/-- From `EstimateWorksheetPage`:
`rows.reduce((sum, row) => sum + row.cost, 0)`. -/
def worksheetSubtotal (rows : List WorksheetRow) : ℚ :=
  rows.foldl (fun s r => s + r.cost) 0

/-- From `EstimateWorksheetPage`: `(subtotal * overheadPercentage) / 100`. -/
def worksheetOverheadAmount (rows : List WorksheetRow) (overheadPercentage : ℚ) : ℚ :=
  worksheetSubtotal rows * overheadPercentage / 100

/-- From `EstimateWorksheetPage`: `subtotal + overheadAmount`. -/
def worksheetTotal (rows : List WorksheetRow) (overheadPercentage : ℚ) : ℚ :=
  worksheetSubtotal rows + worksheetOverheadAmount rows overheadPercentage

/-- The three derived figures the save handler stores, unrounded
(`saveEstimate` inserts `subtotal`, `overhead_amount`, `total` as computed). -/
def savedEstimateFigures (rows : List WorksheetRow) (overheadPercentage : ℚ) :
    ℚ × ℚ × ℚ :=
  (worksheetSubtotal rows, worksheetOverheadAmount rows overheadPercentage,
   worksheetTotal rows overheadPercentage)

/-- The 2-decimal display of `formatCurrency` as a quantity. -/
def formatCurrencyValue (v : ℚ) : ℚ := round2 v

/-- Left fold of addition over mapped values is the sum. -/
lemma foldl_add_map {α : Type} (f : α → ℚ) (l : List α) (a : ℚ) :
    l.foldl (fun s x => s + f x) a = a + (l.map f).sum := by
  induction l generalizing a with
  | nil => simp
  | cons x xs ih =>
    simp only [List.foldl_cons, List.map_cons, List.sum_cons, ih]
    ring

/-- The spec's example rows: costs 10.00 and 20.50. -/
def exampleRows : List WorksheetRow :=
  [{ id := "1", item := "Lumber", cost := 10 },
   { id := "2", item := "Paint", cost := 41 / 2 }]

/-- C4: the worksheet computes subtotal as the exact sum of the row costs,
overhead as `subtotal * percentage / 100`, total as their exact sum, stores
those exact values, and rounds only at display: for rows 10.00 and 20.50 at
15% the stored figures are 30.50, 4.575 and 35.075, displayed as 4.58 and
35.08, with the stored total differing from its display. -/
theorem estimate_worksheet_totals (rows : List WorksheetRow) (p : ℚ) :
    worksheetSubtotal rows = (rows.map (fun r => r.cost)).sum ∧
    worksheetOverheadAmount rows p = (rows.map (fun r => r.cost)).sum * p / 100 ∧
    worksheetTotal rows p =
      (rows.map (fun r => r.cost)).sum + (rows.map (fun r => r.cost)).sum * p / 100 ∧
    savedEstimateFigures rows p =
      ((rows.map (fun r => r.cost)).sum, (rows.map (fun r => r.cost)).sum * p / 100,
       (rows.map (fun r => r.cost)).sum + (rows.map (fun r => r.cost)).sum * p / 100) ∧
    (worksheetSubtotal exampleRows = 61 / 2 ∧
     worksheetOverheadAmount exampleRows 15 = 183 / 40 ∧
     worksheetTotal exampleRows 15 = 1403 / 40 ∧
     formatCurrencyValue (worksheetOverheadAmount exampleRows 15) = 229 / 50 ∧
     formatCurrencyValue (worksheetTotal exampleRows 15) = 877 / 25 ∧
     worksheetTotal exampleRows 15 ≠ formatCurrencyValue (worksheetTotal exampleRows 15)) := by
  have hsub : worksheetSubtotal rows = (rows.map (fun r => r.cost)).sum := by
    unfold worksheetSubtotal
    simpa using foldl_add_map (fun r => r.cost) rows 0
  have hov : worksheetOverheadAmount rows p = (rows.map (fun r => r.cost)).sum * p / 100 := by
    unfold worksheetOverheadAmount
    rw [hsub]
  have htot : worksheetTotal rows p =
      (rows.map (fun r => r.cost)).sum + (rows.map (fun r => r.cost)).sum * p / 100 := by
    unfold worksheetTotal
    rw [hsub, hov]
  refine ⟨hsub, hov, htot, ?_, ?_, ?_, ?_, ?_, ?_, ?_⟩
  · unfold savedEstimateFigures
    rw [hsub, hov, htot]
  · norm_num [worksheetSubtotal, exampleRows]
  · norm_num [worksheetOverheadAmount, worksheetSubtotal, exampleRows]
  · norm_num [worksheetTotal, worksheetOverheadAmount, worksheetSubtotal, exampleRows]
  · norm_num [formatCurrencyValue, worksheetOverheadAmount, worksheetSubtotal,
      exampleRows, round2, round_eq]
  · norm_num [formatCurrencyValue, worksheetTotal, worksheetOverheadAmount,
      worksheetSubtotal, exampleRows, round2, round_eq]
  · norm_num [formatCurrencyValue, worksheetTotal, worksheetOverheadAmount,
      worksheetSubtotal, exampleRows, round2, round_eq]

/-! ### Association-list model of JavaScript object / Map accumulation

JavaScript objects and `Map`s keep keys in insertion order; both grouping
routines mutate `acc[key]` in place, creating the key on first sight.  An
association list updated by `upsertA` reproduces this: an existing key is
updated in place, a new key is appended. -/

/-- Get-or-create update of an association list: applies `f` to the value at
`k` (using `d` when `k` is absent), keeping insertion order. -/
def upsertA {κ β : Type} [DecidableEq κ] (k : κ) (d : β) (f : β → β) :
    List (κ × β) → List (κ × β)
  | [] => [(k, f d)]
  | (k', v) :: rest =>
    if k' = k then (k', f v) :: rest else (k', v) :: upsertA k d f rest

/-- Lookup in an association list. -/
def lookupA {κ β : Type} [DecidableEq κ] (k : κ) : List (κ × β) → Option β
  | [] => none
  | (k', v) :: rest => if k' = k then some v else lookupA k rest

lemma lookupA_upsertA_self {κ β : Type} [DecidableEq κ] (k : κ) (d : β)
    (f : β → β) (m : List (κ × β)) :
    lookupA k (upsertA k d f m) = some (f ((lookupA k m).getD d)) := by
  induction m with
  | nil => simp [upsertA, lookupA]
  | cons kv rest ih =>
    obtain ⟨k', v⟩ := kv
    by_cases h : k' = k
    · simp [upsertA, lookupA, h]
    · simp [upsertA, lookupA, h, ih]

lemma lookupA_upsertA_ne {κ β : Type} [DecidableEq κ] (k k0 : κ) (d : β)
    (f : β → β) (m : List (κ × β)) (hne : k0 ≠ k) :
    lookupA k (upsertA k0 d f m) = lookupA k m := by
  induction m with
  | nil => simp [upsertA, lookupA, hne]
  | cons kv rest ih =>
    obtain ⟨k', v⟩ := kv
    by_cases h : k' = k0
    · subst h
      simp [upsertA, lookupA, hne]
    · by_cases h2 : k' = k
      · have hk0 : ¬ k = k0 := fun hc => h (h2.trans hc)
        subst h2
        simp [upsertA, lookupA, hk0]
      · simp [upsertA, lookupA, h, h2, ih]

lemma lookupA_eq_none_iff {κ β : Type} [DecidableEq κ] (k : κ)
    (m : List (κ × β)) :
    lookupA k m = none ↔ k ∉ m.map Prod.fst := by
  induction m with
  | nil => simp [lookupA]
  | cons kv rest ih =>
    obtain ⟨k', v⟩ := kv
    by_cases h : k' = k
    · simp [lookupA, h]
    · have hL : lookupA k ((k', v) :: rest) = lookupA k rest := by
        simp [lookupA, h]
      rw [hL, ih]
      simp only [List.map_cons, List.mem_cons]
      constructor
      · intro hnm hor
        rcases hor with hc | hm
        · exact h hc.symm
        · exact hnm hm
      · intro hnm hm
        exact hnm (Or.inr hm)

lemma map_fst_upsertA {κ β : Type} [DecidableEq κ] (k : κ) (d : β)
    (f : β → β) (m : List (κ × β)) :
    (upsertA k d f m).map Prod.fst =
      if k ∈ m.map Prod.fst then m.map Prod.fst else m.map Prod.fst ++ [k] := by
  induction m with
  | nil => simp [upsertA]
  | cons kv rest ih =>
    obtain ⟨k', v⟩ := kv
    by_cases h : k' = k
    · simp [upsertA, h]
    · have hne : ¬ k = k' := fun hc => h hc.symm
      by_cases hm : k ∈ rest.map Prod.fst
      · simp [upsertA, h, ih, hm, hne]
      · simp [upsertA, h, ih, hm, hne]

lemma nodup_map_fst_upsertA {κ β : Type} [DecidableEq κ] (k : κ) (d : β)
    (f : β → β) (m : List (κ × β)) (hm : (m.map Prod.fst).Nodup) :
    ((upsertA k d f m).map Prod.fst).Nodup := by
  rw [map_fst_upsertA]
  by_cases h : k ∈ m.map Prod.fst
  · simpa [h] using hm
  · simp only [h, if_false]
    refine List.Nodup.append hm (List.nodup_singleton k) ?_
    intro a ha hc
    rw [List.mem_singleton] at hc
    subst hc
    exact h ha

/-! ### C6: grouping keyed by the denormalized display name -/

/-- Total of an entry's nested expense amounts
(`entry.expenses?.reduce((sum, exp) => sum + exp.amount, 0) || 0`). -/
def entryExpensesTotal (e : TimeEntry) : ℚ :=
  e.expenses.foldl (fun s x => s + x.amount) 0

/-- From `CreateInvoicePage.tsx` `locationSummary`: the per-employee hour
rollup, keyed by `entry.full_name`, accumulated over the fetched entries in
order. -/
def employeeHours (entries : List TimeEntry) : List (String × ℚ) :=
  entries.foldl
    (fun acc e => upsertA e.full_name 0 (fun h => h + invoiceEntryHours e) acc) []

/-- One location bucket of the dashboard's grouped table. -/
structure LocationGroup where
  entriesL : List TimeEntry
  totalHoursL : ℚ
  totalExpensesL : ℚ
deriving Repr, DecidableEq

/-- One person bucket of the dashboard's grouped table. -/
structure PersonGroup where
  locationsG : List (String × LocationGroup)
  totalHoursG : ℚ
  totalExpensesG : ℚ
deriving Repr, DecidableEq

/-- The empty location bucket the code creates on first sight. -/
def emptyLocationGroup : LocationGroup := { entriesL := [], totalHoursL := 0, totalExpensesL := 0 }

/-- The empty person bucket the code creates on first sight. -/
def emptyPersonGroup : PersonGroup := { locationsG := [], totalHoursG := 0, totalExpensesG := 0 }

/-- One step of `groupedEntries` in `ViewActivityPage`: get-or-create the
person bucket keyed by `entry.full_name`, get-or-create its location bucket,
push the entry and add its hours and expenses to both bucket totals. -/
def addEntryToGroups (acc : List (String × PersonGroup)) (e : TimeEntry) :
    List (String × PersonGroup) :=
  upsertA e.full_name emptyPersonGroup (fun pg =>
    { locationsG := upsertA e.location emptyLocationGroup (fun lg =>
        { entriesL := lg.entriesL ++ [e],
          totalHoursL := lg.totalHoursL + dashboardHours e,
          totalExpensesL := lg.totalExpensesL + entryExpensesTotal e }) pg.locationsG,
      totalHoursG := pg.totalHoursG + dashboardHours e,
      totalExpensesG := pg.totalExpensesG + entryExpensesTotal e }) acc

/-- From `ViewActivityPage` `groupedEntries`: the person → location →
entries accumulation (the subsequent alphabetical sort of person groups and
the per-group date-range strings are display-only and happen after this
accumulation). -/
def groupedEntries (entries : List TimeEntry) : List (String × PersonGroup) :=
  entries.foldl addEntryToGroups []

/-- Hours of the person bucket named `n`, 0 when absent. -/
def personHours (groups : List (String × PersonGroup)) (n : String) : ℚ :=
  ((lookupA n groups).map PersonGroup.totalHoursG).getD 0

lemma personHours_step (acc : List (String × PersonGroup)) (e : TimeEntry)
    (n : String) :
    personHours (addEntryToGroups acc e) n =
      personHours acc n + if e.full_name = n then dashboardHours e else 0 := by
  unfold personHours addEntryToGroups
  by_cases h : e.full_name = n
  · subst h
    rw [lookupA_upsertA_self]
    cases hl : lookupA e.full_name acc with
    | none => simp [hl, emptyPersonGroup]
    | some pg => simp [hl]
  · rw [lookupA_upsertA_ne _ _ _ _ _ h]
    simp [h]

lemma personHours_foldl (entries : List TimeEntry)
    (acc : List (String × PersonGroup)) (n : String) :
    personHours (entries.foldl addEntryToGroups acc) n =
      personHours acc n +
        ((entries.filter fun e => e.full_name = n).map dashboardHours).sum := by
  induction entries generalizing acc with
  | nil => simp
  | cons e es ih =>
    rw [List.foldl_cons, ih, personHours_step]
    by_cases h : e.full_name = n
    · simp [h, List.filter_cons]
      ring
    · simp [h, List.filter_cons]

lemma employeeHours_step (acc : List (String × ℚ)) (e : TimeEntry) (n : String) :
    (lookupA n (upsertA e.full_name 0 (fun h => h + invoiceEntryHours e) acc)).getD 0 =
      (lookupA n acc).getD 0 + if e.full_name = n then invoiceEntryHours e else 0 := by
  by_cases h : e.full_name = n
  · subst h
    rw [lookupA_upsertA_self]
    cases hl : lookupA e.full_name acc with
    | none => simp [hl]
    | some q => simp [hl]
  · rw [lookupA_upsertA_ne _ _ _ _ _ h]
    simp [h]

lemma employeeHours_foldl (entries : List TimeEntry) (acc : List (String × ℚ))
    (n : String) :
    (lookupA n (entries.foldl
        (fun acc e => upsertA e.full_name 0 (fun h => h + invoiceEntryHours e) acc)
        acc)).getD 0 =
      (lookupA n acc).getD 0 +
        ((entries.filter fun e => e.full_name = n).map invoiceEntryHours).sum := by
  induction entries generalizing acc with
  | nil => simp
  | cons e es ih =>
    rw [List.foldl_cons, ih, employeeHours_step]
    by_cases h : e.full_name = n
    · simp [h, List.filter_cons]
      ring
    · simp [h, List.filter_cons]

/-- C6: both aggregators key person groups by the denormalized display name
only - the rolled-up hours for a name are the sum over all entries carrying
that `full_name`, with `user_id` never consulted; in particular two entries
with the same name and any (possibly different) user ids end up in a single
group whose hours are the sum of both. -/
theorem grouping_by_display_name (entries : List TimeEntry) (n : String)
    (e1 e2 : TimeEntry) (h1 : e1.full_name = n) (h2 : e2.full_name = n) :
    personHours (groupedEntries entries) n =
      ((entries.filter fun e => e.full_name = n).map dashboardHours).sum ∧
    (lookupA n (employeeHours entries)).getD 0 =
      ((entries.filter fun e => e.full_name = n).map invoiceEntryHours).sum ∧
    (groupedEntries [e1, e2]).map Prod.fst = [n] ∧
    personHours (groupedEntries [e1, e2]) n =
      dashboardHours e1 + dashboardHours e2 ∧
    (employeeHours [e1, e2]).map Prod.fst = [n] ∧
    (lookupA n (employeeHours [e1, e2])).getD 0 =
      invoiceEntryHours e1 + invoiceEntryHours e2 := by
  have hg : personHours (groupedEntries entries) n =
      ((entries.filter fun e => e.full_name = n).map dashboardHours).sum := by
    have h := personHours_foldl entries [] n
    simpa [groupedEntries, personHours, lookupA] using h
  have he : (lookupA n (employeeHours entries)).getD 0 =
      ((entries.filter fun e => e.full_name = n).map invoiceEntryHours).sum := by
    have h := employeeHours_foldl entries [] n
    simpa [employeeHours, lookupA] using h
  refine ⟨hg, he, ?_, ?_, ?_, ?_⟩
  · simp [groupedEntries, addEntryToGroups, upsertA, h1, h2]
  · have h := personHours_foldl [e1, e2] [] n
    simp [List.filter_cons, h1, h2] at h
    simpa [groupedEntries, personHours, lookupA] using h
  · simp [employeeHours, upsertA, h1, h2]
  · have h := employeeHours_foldl [e1, e2] [] n
    simp [List.filter_cons, h1, h2] at h
    simpa [employeeHours, lookupA, h1, h2] using h

/-- Second entry sharing Alice's display name but with a different user id. -/
def aliceOtherIdEntry : TimeEntry :=
  { date := 2, is_full_day := true, start_time := 8 * 60,
    end_time := 16 * 60 + 30, location := "Site B", has_lunch_break := false,
    lunch_break := none, user_id := "u9", full_name := "Alice",
    expenses := [] }

/-- Witness for C6: `fullDayNoLunchEntry` (user id u1) and
`aliceOtherIdEntry` (user id u9) share the name Alice and land in a single
group with summed hours in both aggregators. -/
theorem grouping_by_display_name_witness :
    fullDayNoLunchEntry.full_name = "Alice" ∧
    aliceOtherIdEntry.full_name = "Alice" ∧
    fullDayNoLunchEntry.user_id ≠ aliceOtherIdEntry.user_id ∧
    ((groupedEntries [fullDayNoLunchEntry, aliceOtherIdEntry]).map Prod.fst =
        ["Alice"] ∧
      personHours (groupedEntries [fullDayNoLunchEntry, aliceOtherIdEntry]) "Alice" =
        dashboardHours fullDayNoLunchEntry + dashboardHours aliceOtherIdEntry ∧
      (employeeHours [fullDayNoLunchEntry, aliceOtherIdEntry]).map Prod.fst =
        ["Alice"] ∧
      (lookupA "Alice" (employeeHours [fullDayNoLunchEntry, aliceOtherIdEntry])).getD 0 =
        invoiceEntryHours fullDayNoLunchEntry + invoiceEntryHours aliceOtherIdEntry) :=
  ⟨rfl, rfl, by decide,
    ((grouping_by_display_name [fullDayNoLunchEntry, aliceOtherIdEntry] "Alice"
        fullDayNoLunchEntry aliceOtherIdEntry rfl rfl).2.2 :)⟩

/-! ### C10: the Hours cell of invoice detail rows -/

/-- From `CreateInvoicePage.tsx` `generateExcel`: the (employee, Hours-cell)
pairs of the detailed rows.  Each entry emits one row per expense (or a
single row when it has none), and every such row's Hours cell is
`locationSummary.employeeHours[entry.full_name].toFixed(2)` - the
per-employee rollup, displayed at 2 decimals. -/
def invoiceDetailHoursCells (entries : List TimeEntry) : List (String × ℚ) :=
  (entries.map fun e =>
    let cell := round2 ((lookupA e.full_name (employeeHours entries)).getD 0)
    if e.expenses.isEmpty then [(e.full_name, cell)]
    else e.expenses.map fun _ => (e.full_name, cell)).flatten

lemma mem_invoiceDetailHoursCells (entries : List TimeEntry) (n : String) (q : ℚ)
    (hmem : (n, q) ∈ invoiceDetailHoursCells entries) :
    q = round2 ((lookupA n (employeeHours entries)).getD 0) := by
  unfold invoiceDetailHoursCells at hmem
  rw [List.mem_flatten] at hmem
  obtain ⟨l, hl, hin⟩ := hmem
  rw [List.mem_map] at hl
  obtain ⟨e, _, rfl⟩ := hl
  by_cases hemp : e.expenses.isEmpty
  · simp only [hemp, if_true, List.mem_singleton, Prod.mk.injEq] at hin
    obtain ⟨rfl, rfl⟩ := hin
    rfl
  · rw [Bool.not_eq_true] at hemp
    simp only [hemp, Bool.false_eq_true, if_false, List.mem_map, Prod.mk.injEq] at hin
    obtain ⟨x, -, rfl, rfl⟩ := hin
    rfl

/-- C10: every detail row's Hours cell equals the 2-decimal display of that
employee's summed hours over all fetched entries (not the row's own entry
duration), so all detail rows of one employee carry the same Hours value. -/
theorem invoice_detail_hours_is_rollup (entries : List TimeEntry) (n : String)
    (q : ℚ) (hmem : (n, q) ∈ invoiceDetailHoursCells entries) :
    q = round2 (((entries.filter fun e => e.full_name = n).map invoiceEntryHours).sum) ∧
    ∀ q', (n, q') ∈ invoiceDetailHoursCells entries → q' = q := by
  have hsum : (lookupA n (employeeHours entries)).getD 0 =
      ((entries.filter fun e => e.full_name = n).map invoiceEntryHours).sum := by
    have h := employeeHours_foldl entries [] n
    simpa [employeeHours, lookupA] using h
  have hq := mem_invoiceDetailHoursCells entries n q hmem
  refine ⟨hq.trans (by rw [hsum]), ?_⟩
  intro q' hmem'
  have hq' := mem_invoiceDetailHoursCells entries n q' hmem'
  rw [hq', hq]

/-- Witness for C10: in a period with two Alice entries (7.5 h and 8 h, one
with an expense row and one without), every Alice detail row carries the
rolled-up 15.5 hours. -/
theorem invoice_detail_hours_is_rollup_witness :
    (("Alice", (31 / 2 : ℚ)) ∈ invoiceDetailHoursCells [c9Entry1, aliceOtherIdEntry]) ∧
    ((31 / 2 : ℚ) =
        round2 ((([c9Entry1, aliceOtherIdEntry].filter
          fun e => e.full_name = "Alice").map invoiceEntryHours).sum) ∧
      ∀ q', ("Alice", q') ∈ invoiceDetailHoursCells [c9Entry1, aliceOtherIdEntry] →
        q' = 31 / 2) := by
  have hmem : ("Alice", (31 / 2 : ℚ)) ∈
      invoiceDetailHoursCells [c9Entry1, aliceOtherIdEntry] := by
    have hcells : invoiceDetailHoursCells [c9Entry1, aliceOtherIdEntry] =
        [("Alice", 31 / 2), ("Alice", 31 / 2)] := by
      norm_num [invoiceDetailHoursCells, employeeHours, upsertA, lookupA,
        c9Entry1, aliceOtherIdEntry, c9Expense, invoiceEntryHours, lunchMinutes,
        round2, round_eq]
    rw [hcells]
    simp
  exact ⟨hmem,
    invoice_detail_hours_is_rollup [c9Entry1, aliceOtherIdEntry] "Alice" (31 / 2) hmem⟩

/-! ### C7: CSV field escaping -/

/-- Character-level model of `cell.replace(/"/g, '""')`: every double-quote
character is doubled, all other characters pass through. -/
def csvEscapeChars : List Char → List Char
  | [] => []
  | c :: cs =>
    if c = '"' then '"' :: '"' :: csvEscapeChars cs else c :: csvEscapeChars cs

/-- From the export routines (part_001 `exportToCSV`, part_002 `exportToCSV`
and `CreateInvoicePage.tsx` `generateExcel`, all three identical): a string
cell is serialized as `` `"${cell.replace(/"/g, '""')}"` `` - wrapped in
double quotes with embedded quotes doubled. -/
def csvEscapeCell (s : String) : String :=
  String.mk ('"' :: (csvEscapeChars s.data ++ ['"']))

/-- A CSV row as the export routines join it: each string cell escaped, then
`join(',')`. -/
def csvJoinRow (row : List String) : String :=
  String.intercalate "," (row.map csvEscapeCell)

/-- Standard (RFC-4180) reading of a quoted CSV field body: a doubled quote
is one literal quote, a single quote closes the field (here required to end
the input), any other character is literal. -/
def csvUnquoteBody : List Char → Option (List Char)
  | [] => none
  | c :: rest =>
    if c = '"' then
      match rest with
      | [] => some []
      | c2 :: rest2 =>
        if c2 = '"' then (csvUnquoteBody rest2).map (fun l => '"' :: l)
        else none
    else (csvUnquoteBody rest).map (fun l => c :: l)

/-- Standard reading of one complete quoted CSV field: an opening quote then
a body closed by the final quote. -/
def csvParseFieldChars : List Char → Option (List Char)
  | '"' :: rest => csvUnquoteBody rest
  | _ => none

/-- String-level wrapper of `csvParseFieldChars`. -/
def csvParseField (s : String) : Option String :=
  (csvParseFieldChars s.data).map String.mk

lemma csvUnquoteBody_escape (cs : List Char) :
    csvUnquoteBody (csvEscapeChars cs ++ ['"']) = some cs := by
  induction cs with
  | nil => simp [csvEscapeChars, csvUnquoteBody]
  | cons c cs ih =>
    by_cases h : c = '"'
    · subst h
      simp [csvEscapeChars, csvUnquoteBody, ih]
    · rw [show csvEscapeChars (c :: cs) = c :: csvEscapeChars cs by
        simp [csvEscapeChars, h]]
      rw [csvUnquoteBody.eq_def]
      simp [h, ih]

/-- C7: every string cell is serialized quoted with embedded quotes doubled,
and this round-trips under standard CSV quoting for every string - in
particular for the field containing both the delimiter and quote characters,
which serializes exactly as the spec's example. -/
theorem csv_escape_roundtrip :
    (∀ s : String, csvParseField (csvEscapeCell s) = some s) ∧
    csvEscapeCell "Paint, 2\" brush \"deluxe\"" =
      "\"Paint, 2\"\" brush \"\"deluxe\"\"\"" := by
  constructor
  · intro s
    cases s with
    | mk d =>
      show (csvParseFieldChars ('"' :: (csvEscapeChars d ++ ['"']))).map String.mk =
        some (String.mk d)
      rw [show csvParseFieldChars ('"' :: (csvEscapeChars d ++ ['"'])) =
        csvUnquoteBody (csvEscapeChars d ++ ['"']) from rfl]
      rw [csvUnquoteBody_escape]
      rfl
  · decide

/-! ### C5: daily chart buckets (ViewActivityPage `chartData`) -/

/-- One cell of the per-day per-user accumulation:
`{ hours: number; locations: string[] }`. -/
structure ChartCell where
  hoursC : ℚ
  locationsC : List String
deriving Repr, DecidableEq

/-- The empty cell the code creates on first sight of a day/user pair. -/
def emptyChartCell : ChartCell := { hoursC := 0, locationsC := [] }

/-- Model of date-fns `eachDayOfInterval`: every day of the inclusive range
`[s, t]` in ascending order. -/
def eachDayOfInterval (s t : ℤ) : List ℤ :=
  (List.range (t + 1 - s).toNat).map fun i : ℕ => s + (i : ℤ)

/-- The zero-filled initial object: one key per day of the range, each with
an empty user map. -/
def chartInit (s t : ℤ) : List (ℤ × List (String × ChartCell)) :=
  (eachDayOfInterval s t).map fun d => (d, [])

/-- One step of the `entries.forEach` accumulation: get-or-create the day
key, get-or-create the user cell, add the entry's hours and record its
location once. -/
def addEntryToChartData (acc : List (ℤ × List (String × ChartCell)))
    (e : TimeEntry) : List (ℤ × List (String × ChartCell)) :=
  upsertA e.date [] (fun userMap =>
    upsertA e.full_name emptyChartCell (fun c =>
      { hoursC := c.hoursC + dashboardHours e,
        locationsC := if e.location ∈ c.locationsC then c.locationsC
          else c.locationsC ++ [e.location] }) userMap) acc

/-- The fully accumulated per-day per-user object. -/
def chartDataRaw (entries : List TimeEntry) (s t : ℤ) :
    List (ℤ × List (String × ChartCell)) :=
  entries.foldl addEntryToChartData (chartInit s t)

/-- One chart.js dataset (`label`, `data`, `locationData`; the
`backgroundColor` assignment is presentation-only and omitted). -/
structure ChartDataset where
  labelD : String
  dataD : List ℚ
  locationDataD : List (List String)
deriving Repr, DecidableEq

/-- The chart.js payload: sorted day labels and one dataset per user. -/
structure ChartData where
  labels : List ℤ
  datasets : List ChartDataset
deriving Repr, DecidableEq

/-- Cell lookup `data[date][user]`. -/
def cellAt (raw : List (ℤ × List (String × ChartCell))) (d : ℤ) (u : String) :
    Option ChartCell :=
  (lookupA d raw).bind (lookupA u)

/-- The sorted day keys, `Object.keys(data).sort()`. -/
def chartLabels (entries : List TimeEntry) (s t : ℤ) : List ℤ :=
  List.insertionSort (· ≤ ·) ((chartDataRaw entries s t).map Prod.fst)

/-- The sorted distinct employee names,
`Array.from(new Set(entries.map(e => e.full_name))).sort()`. -/
def chartUsers (entries : List TimeEntry) : List String :=
  List.insertionSort (· ≤ ·) (entries.map fun e => e.full_name).dedup

/-- The dataset of one user: per sorted day key, `hours || 0` and
`locations || []`. -/
def chartDatasetFor (entries : List TimeEntry) (s t : ℤ) (u : String) :
    ChartDataset :=
  { labelD := u,
    dataD := (chartLabels entries s t).map fun d =>
      ((cellAt (chartDataRaw entries s t) d u).map ChartCell.hoursC).getD 0,
    locationDataD := (chartLabels entries s t).map fun d =>
      ((cellAt (chartDataRaw entries s t) d u).map ChartCell.locationsC).getD [] }

/-- From `ViewActivityPage` `chartData`: `null` for an empty entry set or an
inverted range (the string-format guards of the source are subsumed by the
dates arriving here already parsed); otherwise the per-day accumulation with
sorted day keys as labels and one dataset per distinct user. -/
def chartData (entries : List TimeEntry) (s t : ℤ) : Option ChartData :=
  if entries = [] then none
  else if t < s then none
  else
    some
      { labels := chartLabels entries s t,
        datasets := (chartUsers entries).map (chartDatasetFor entries s t) }

/-- Hours the accumulated object holds for a day/user pair, 0 when the pair
has no cell. -/
def cellHours (raw : List (ℤ × List (String × ChartCell))) (d : ℤ)
    (u : String) : ℚ :=
  ((cellAt raw d u).map ChartCell.hoursC).getD 0

lemma cell_upsert_hours (k u : String) (e : TimeEntry)
    (inner : List (String × ChartCell)) :
    ((lookupA u (upsertA k emptyChartCell (fun c =>
        { hoursC := c.hoursC + dashboardHours e,
          locationsC := if e.location ∈ c.locationsC then c.locationsC
            else c.locationsC ++ [e.location] }) inner)).map ChartCell.hoursC).getD 0 =
      ((lookupA u inner).map ChartCell.hoursC).getD 0 +
        if k = u then dashboardHours e else 0 := by
  by_cases hu : k = u
  · subst hu
    rw [lookupA_upsertA_self]
    cases hm : lookupA k inner with
    | none => simp [emptyChartCell]
    | some c => simp
  · rw [lookupA_upsertA_ne _ _ _ _ _ hu]
    simp [hu]

lemma cellHours_step (acc : List (ℤ × List (String × ChartCell)))
    (e : TimeEntry) (d : ℤ) (u : String) :
    cellHours (addEntryToChartData acc e) d u =
      cellHours acc d u +
        if e.date = d ∧ e.full_name = u then dashboardHours e else 0 := by
  unfold cellHours cellAt addEntryToChartData
  by_cases hd : e.date = d
  · subst hd
    rw [lookupA_upsertA_self, Option.some_bind, cell_upsert_hours]
    cases hacc : lookupA e.date acc with
    | none => simp [hacc, lookupA]
    | some m => simp [hacc]
  · rw [lookupA_upsertA_ne _ _ _ _ _ hd]
    simp [hd]

lemma cellHours_foldl (entries : List TimeEntry)
    (acc : List (ℤ × List (String × ChartCell))) (d : ℤ) (u : String) :
    cellHours (entries.foldl addEntryToChartData acc) d u =
      cellHours acc d u +
        ((entries.filter fun e => e.date = d ∧ e.full_name = u).map
          dashboardHours).sum := by
  induction entries generalizing acc with
  | nil => simp
  | cons e es ih =>
    rw [List.foldl_cons, ih, cellHours_step]
    by_cases h : e.date = d ∧ e.full_name = u
    · simp [h, List.filter_cons]
      ring
    · simp [h, List.filter_cons]

lemma cellHours_init (ds : List ℤ) (d : ℤ) (u : String) :
    cellHours (ds.map fun x => (x, [])) d u = 0 := by
  induction ds with
  | nil => simp [cellHours, cellAt, lookupA]
  | cons a ds ih =>
    by_cases h : a = d
    · simp [cellHours, cellAt, lookupA, h]
    · simpa [cellHours, cellAt, lookupA, h] using ih

lemma map_fst_addEntry_superset (acc : List (ℤ × List (String × ChartCell)))
    (e : TimeEntry) (d : ℤ) (hd : d ∈ acc.map Prod.fst) :
    d ∈ (addEntryToChartData acc e).map Prod.fst := by
  unfold addEntryToChartData
  rw [map_fst_upsertA]
  by_cases h : e.date ∈ acc.map Prod.fst
  · simpa [h] using hd
  · simp only [h, if_false, List.mem_append]
    exact Or.inl hd

lemma map_fst_foldl_superset (entries : List TimeEntry)
    (acc : List (ℤ × List (String × ChartCell))) (d : ℤ)
    (hd : d ∈ acc.map Prod.fst) :
    d ∈ (entries.foldl addEntryToChartData acc).map Prod.fst := by
  induction entries generalizing acc with
  | nil => exact hd
  | cons e es ih => exact ih _ (map_fst_addEntry_superset acc e d hd)

lemma nodup_fst_foldl (entries : List TimeEntry)
    (acc : List (ℤ × List (String × ChartCell)))
    (h : (acc.map Prod.fst).Nodup) :
    ((entries.foldl addEntryToChartData acc).map Prod.fst).Nodup := by
  induction entries generalizing acc with
  | nil => exact h
  | cons e es ih => exact ih _ (nodup_map_fst_upsertA _ _ _ _ h)

lemma chartInit_map_fst (s t : ℤ) :
    (chartInit s t).map Prod.fst = eachDayOfInterval s t := by
  simp [chartInit, Function.comp_def]

lemma mem_eachDayOfInterval (s t d : ℤ) (h1 : s ≤ d) (h2 : d ≤ t) :
    d ∈ eachDayOfInterval s t := by
  unfold eachDayOfInterval
  rw [List.mem_map]
  exact ⟨(d - s).toNat, by rw [List.mem_range]; omega, by omega⟩

lemma nodup_eachDayOfInterval (s t : ℤ) : (eachDayOfInterval s t).Nodup := by
  unfold eachDayOfInterval
  refine List.Nodup.map ?_ (List.nodup_range _)
  intro a b h
  have h' : s + (a : ℤ) = s + (b : ℤ) := h
  omega

/-- C5: for a non-empty entry set and a valid inclusive range, the chart is
produced, its label list contains every day of the range exactly once (plus
at most stray entry dates), and each user's series holds, for every label,
the sum of that user's entry hours on that day - 0 for a day/user pair with
no entries, and the sum over all matching entries otherwise. -/
theorem chart_daily_buckets (entries : List TimeEntry) (s t : ℤ)
    (hne : entries ≠ []) (hst : s ≤ t) :
    ∃ c, chartData entries s t = some c ∧
      c.labels.Nodup ∧
      (∀ d, s ≤ d → d ≤ t → d ∈ c.labels) ∧
      (∀ ds ∈ c.datasets,
        ds.dataD = c.labels.map fun d =>
          ((entries.filter fun e => e.date = d ∧ e.full_name = ds.labelD).map
            dashboardHours).sum) := by
  unfold chartData
  rw [if_neg hne, if_neg (not_lt.2 hst)]
  refine ⟨_, rfl, ?_, ?_, ?_⟩
  · have hinit : ((chartInit s t).map Prod.fst).Nodup := by
      rw [chartInit_map_fst]
      exact nodup_eachDayOfInterval s t
    have hkeys : ((chartDataRaw entries s t).map Prod.fst).Nodup :=
      nodup_fst_foldl entries (chartInit s t) hinit
    exact ((List.perm_insertionSort _ _).nodup_iff).2 hkeys
  · intro d h1 h2
    have hmem : d ∈ (chartDataRaw entries s t).map Prod.fst := by
      apply map_fst_foldl_superset
      rw [chartInit_map_fst]
      exact mem_eachDayOfInterval s t d h1 h2
    exact (List.mem_insertionSort _).2 hmem
  · intro ds hds
    rw [List.mem_map] at hds
    obtain ⟨u, hu, rfl⟩ := hds
    have hfun : ∀ d : ℤ,
        ((cellAt (chartDataRaw entries s t) d u).map ChartCell.hoursC).getD 0 =
          ((entries.filter fun e => e.date = d ∧ e.full_name = u).map
            dashboardHours).sum := by
      intro d
      have h := cellHours_foldl entries (chartInit s t) d u
      have hz : cellHours (chartInit s t) d u = 0 := cellHours_init _ d u
      rw [hz, zero_add] at h
      simpa [cellHours, chartDataRaw] using h
    show (chartDatasetFor entries s t u).dataD = _
    unfold chartDatasetFor
    simp only []
    rw [show (fun d : ℤ =>
        ((cellAt (chartDataRaw entries s t) d u).map ChartCell.hoursC).getD 0) =
      (fun d : ℤ =>
        ((entries.filter fun e => e.date = d ∧ e.full_name = u).map
          dashboardHours).sum) from funext hfun]

/-- Entry on day 1 of the 3-day example range. -/
def day1Entry : TimeEntry :=
  { date := 1, is_full_day := true, start_time := 8 * 60,
    end_time := 16 * 60 + 30, location := "Site A", has_lunch_break := true,
    lunch_break := some 30, user_id := "u1", full_name := "Alice",
    expenses := [] }

/-- Entry on day 3 of the 3-day example range. -/
def day3Entry : TimeEntry :=
  { date := 3, is_full_day := true, start_time := 8 * 60,
    end_time := 16 * 60 + 30, location := "Site A", has_lunch_break := true,
    lunch_break := some 30, user_id := "u1", full_name := "Alice",
    expenses := [] }

/-- Witness for C5: entries only on day 1 and day 3 of the range [1, 3]
still produce the zero-filled bucket list [1, 2, 3]. -/
theorem chart_daily_buckets_witness :
    ([day1Entry, day3Entry] ≠ ([] : List TimeEntry)) ∧ ((1 : ℤ) ≤ 3) ∧
    chartLabels [day1Entry, day3Entry] 1 3 = [1, 2, 3] ∧
    (∃ c, chartData [day1Entry, day3Entry] 1 3 = some c ∧
      c.labels.Nodup ∧
      (∀ d, 1 ≤ d → d ≤ 3 → d ∈ c.labels) ∧
      (∀ ds ∈ c.datasets,
        ds.dataD = c.labels.map fun d =>
          (([day1Entry, day3Entry].filter fun e =>
            e.date = d ∧ e.full_name = ds.labelD).map dashboardHours).sum)) := by
  refine ⟨by simp, by decide, ?_, chart_daily_buckets [day1Entry, day3Entry] 1 3
    (by simp) (by decide)⟩
  have hrange : eachDayOfInterval 1 3 = [1, 2, 3] := by
    decide
  have hinit : chartInit 1 3 = [(1, []), (2, []), (3, [])] := by
    rw [chartInit, hrange]
    rfl
  have hraw : (chartDataRaw [day1Entry, day3Entry] 1 3).map Prod.fst = [1, 2, 3] := by
    rw [chartDataRaw, hinit]
    norm_num [addEntryToChartData, upsertA, day1Entry, day3Entry]
  rw [chartLabels, hraw]
  norm_num [List.insertionSort, List.orderedInsert]
